import Mathlib

/-!
Verification of the data pipeline in `language_model/dataset.py`
(graph-traversal token extractor, vocabulary builder, tensoriser and
minibatch iterator).  The Python functions are shallowly embedded as
executable Lean definitions; machine integers are modelled by `Int`/`Nat`
(no overflow is relevant here), Python dictionaries by lookup functions
with last-write-wins semantics, and the possibly non-terminating
chain-following `while` loop by a fuel-indexed recursion whose `none`
result means "the loop has not finished within the given fuel".
-/

/-- Modelled from the spec: the node kinds of the protobuf schema
(`graph_pb2.FeatureNode`, generated code not in the repository).  Only
membership in `(TOKEN, IDENTIFIER_TOKEN)` is ever tested by the code, so
all remaining kinds are collapsed into `OTHER_KIND`. -/
inductive NodeType where
  | TOKEN
  | IDENTIFIER_TOKEN
  | OTHER_KIND
deriving DecidableEq, Repr

/-- Modelled from the spec: the edge kinds of the protobuf schema
(`graph_pb2.FeatureEdge`).  Only `NEXT_TOKEN` is ever tested by the code,
so all remaining kinds are collapsed into `OTHER_EDGE`. -/
inductive EdgeType where
  | NEXT_TOKEN
  | OTHER_EDGE
deriving DecidableEq, Repr

/-- A graph node (`FeatureNode`): id, kind, raw text contents and the
source-position span. -/
structure Node where
  id : Int
  type : NodeType
  contents : String
  startPosition : Int
  endPosition : Int
deriving DecidableEq, Repr

/-- A graph edge (`FeatureEdge`). -/
structure Edge where
  sourceId : Int
  destinationId : Int
  type : EdgeType
deriving DecidableEq, Repr

/-- One parsed record: the `node` and `edge` collections of `graph_pb2.Graph`,
in serialisation (enumeration) order. -/
structure Graph where
  node : List Node
  edge : List Edge
deriving DecidableEq, Repr

/-- Model of `nodes_dict` in `load_data_file`: nodes indexed by id.  The Python dict
is filled by one pass over `g.node`, so on duplicate ids the last node wins;
the fold below returns exactly that last match. -/
def nodes_dict (g : Graph) (i : Int) : Option Node :=
  g.node.foldl (fun acc n => if n.id = i then some n else acc) none

/-- Model of `tokens_by_start_pos` in `load_data_file`: token-like nodes indexed by
`startPosition`, last-wins on duplicate keys. -/
def tokens_by_start_pos (g : Graph) (p : Int) : Option Node :=
  g.node.foldl
    (fun acc n =>
      if (n.type = NodeType.TOKEN ∨ n.type = NodeType.IDENTIFIER_TOKEN) ∧ n.startPosition = p
      then some n else acc)
    none

/-- Model of `tokens_by_end_pos` in `load_data_file`: token-like nodes indexed by
`endPosition`, last-wins on duplicate keys. -/
def tokens_by_end_pos (g : Graph) (p : Int) : Option Node :=
  g.node.foldl
    (fun acc n =>
      if (n.type = NodeType.TOKEN ∨ n.type = NodeType.IDENTIFIER_TOKEN) ∧ n.endPosition = p
      then some n else acc)
    none

/-- Model of `methods` in `load_data_file`: the nodes whose `contents` is `METHOD`,
in graph enumeration order. -/
def methods (g : Graph) : List Node :=
  g.node.filter (fun n => n.contents = "METHOD")

/-- Model of `edges_dict[src]` in `load_data_file`: the Python dict of outgoing-edge
lists keyed by `sourceId` is built by appending edges in enumeration order,
so the entry for `src` is exactly the sublist of edges with that source,
in order; a missing key corresponds to the empty list here (the code guards
with `if nid in edges_dict`, and an empty iteration has the same effect). -/
def edges_dict (g : Graph) (src : Int) : List Edge :=
  g.edge.filter (fun e => e.sourceId = src)

/-- One iteration of the edge-following part of the `while` loop body:
`for e in edges_dict[nid]: if e.type == FeatureEdge.NEXT_TOKEN: nid = e.destinationId`.
The list iterated over is the one fetched for the incoming `nid`; each
`NEXT_TOKEN` edge overwrites the running value, so the last such edge wins. -/
def stepNext (g : Graph) (nid : Int) : Int :=
  (edges_dict g nid).foldl
    (fun cur e => if e.type = EdgeType.NEXT_TOKEN then e.destinationId else cur) nid

/-- Value `iter_step g k nid` is the node id reached after `k` executions of the
edge-following part of the loop body, starting from `nid`. -/
def iter_step (g : Graph) : Nat → Int → Int
  | 0, nid => nid
  | k + 1, nid => iter_step g k (stepNext g nid)

/-- Python's `str.lower()` as used on node contents: lowercase every
character (ASCII contents in this data).  Implemented by a structural map
over the characters so that concrete traversals evaluate inside the
kernel; it agrees with `String.toLower`. -/
def lower (s : String) : String := ⟨s.data.map Char.toLower⟩

/-- Errors the embedded code can signal.  `keyError k` models Python's
built-in `KeyError(k)` from a failed dict lookup.  `missingTokenBoundary`
is modelled from the spec (`MissingTokenBoundaryError` of §7, a class that
does not exist in the source): it is never produced by the embedded code
and exists only to compare the code against the spec's error taxonomy. -/
inductive Err where
  | keyError (key : Int)
  | missingTokenBoundary (startPos endPos : Int)
deriving DecidableEq, Repr

/-- Whether an error is the spec's `MissingTokenBoundaryError`. -/
def Err.isMissingTokenBoundary : Err → Bool
  | Err.missingTokenBoundary _ _ => true
  | _ => false

/-- The `while nid != tokens_by_end_pos[m.endPosition].id` loop of
`load_data_file`, with `endId` the (constant) id that the repeated end
lookup produces.  Each iteration appends `nodes_dict[nid].contents.lower()`
(a `KeyError` if `nid` is not a node id) and then follows the `NEXT_TOKEN`
edges.  `fuel` bounds the number of iterations; `none` means the loop is
still running when the fuel runs out, so "for every fuel the result is
`none`" states that the loop never terminates. -/
def chase (g : Graph) (endId : Int) : Nat → Int → List String → Option (Except Err (List String))
  | 0, _, _ => none
  | fuel + 1, nid, acc =>
    if nid = endId then some (Except.ok acc.reverse)
    else
      match nodes_dict g nid with
      | none => some (Except.error (Err.keyError nid))
      | some n => chase g endId fuel (stepNext g nid) (lower n.contents :: acc)

/-- The per-method body of `load_data_file`: look up the start token by the
method's `startPosition` (`KeyError` on miss), the end token by its
`endPosition` (`KeyError` on miss, raised by the first evaluation of the
`while` condition, before anything is appended), then run the chain. -/
def process_method (g : Graph) (fuel : Nat) (m : Node) : Option (Except Err (List String)) :=
  match tokens_by_start_pos g m.startPosition with
  | none => some (Except.error (Err.keyError m.startPosition))
  | some s =>
    match tokens_by_end_pos g m.endPosition with
    | none => some (Except.error (Err.keyError m.endPosition))
    | some e => chase g e.id fuel s.id []

/-- The `for m in methods` loop of `load_data_file`.  The result pairs the
lists yielded so far with an optional terminal error (the generator raises
after its earlier yields); `none` means consuming the generator never
finishes because some traversal loops forever. -/
def run_methods (g : Graph) (fuel : Nat) : List Node → Option (List (List String) × Option Err)
  | [] => some ([], none)
  | m :: ms =>
    match process_method g fuel m with
    | none => none
    | some (Except.error err) => some ([], some err)
    | some (Except.ok tokens) =>
      match run_methods g fuel ms with
      | none => none
      | some (ys, r) => some ((if tokens.length > 0 then tokens :: ys else ys), r)

/-- Model of `load_data_file` on an already-parsed graph (file reading and protobuf
decoding are outside the scope of the embedded core). -/
def load_data_file (fuel : Nat) (g : Graph) : Option (List (List String) × Option Err) :=
  run_methods g fuel (methods g)

/-- Modelled from the spec: destination of the FIRST outgoing `NEXT_TOKEN`
edge in edge-enumeration order ("if multiple exist, take the first in
edge-enumeration order", §4.2).  This is the spec's description of the
traversal step, to be compared with the code's `stepNext`. -/
def first_next_token_dest (g : Graph) (nid : Int) : Option Int :=
  (((edges_dict g nid).filter (fun e => e.type = EdgeType.NEXT_TOKEN)).head?).map
    (fun e => e.destinationId)

/-- Destination of the LAST outgoing `NEXT_TOKEN` edge in edge-enumeration
order (what the code's overwrite loop actually lands on). -/
def last_next_token_dest (g : Graph) (nid : Int) : Option Int :=
  (((edges_dict g nid).filter (fun e => e.type = EdgeType.NEXT_TOKEN)).getLast?).map
    (fun e => e.destinationId)

/-! ### Vocabulary (external dpu_utils dependency) and the vocabulary builder -/

/-- Constant `START_SYMBOL` of dataset.py. -/
def START_SYMBOL : String := "%START%"

/-- Constant `END_SYMBOL` of dataset.py. -/
def END_SYMBOL : String := "%END%"

/-- Modelled from the spec: the unknown-token reserved symbol of the
external dpu_utils Vocabulary (not part of this repository). -/
def UNK_SYMBOL : String := "%UNK%"

/-- Modelled from the spec: the padding reserved symbol of the external
dpu_utils Vocabulary (not part of this repository). -/
def PAD_SYMBOL : String := "%PAD%"

/-- Modelled from the spec: the external dpu_utils `Vocabulary` — "an
ordered bidirectional mapping between token strings and small non-negative
integer ids" (§3).  A token's id is its index in `id_to_token`. -/
structure Vocabulary where
  id_to_token : List String
deriving DecidableEq, Repr

/-- Modelled from the spec: `token → id` lookup; `none` on a missing token. -/
def Vocabulary.token_to_id (v : Vocabulary) (t : String) : Option Nat :=
  v.id_to_token.findIdx? (fun s => s = t)

/-- Modelled from the spec: `add_or_get_id` inserts the token at the next
free id if it is not present; existing tokens keep their id. -/
def Vocabulary.add_or_get_id (v : Vocabulary) (t : String) : Vocabulary :=
  if t ∈ v.id_to_token then v else ⟨v.id_to_token ++ [t]⟩

/-- Modelled from the spec: "Querying an unseen token returns the unknown
id; this must never fail" (§4.3). -/
def Vocabulary.get_id_or_unk (v : Vocabulary) (t : String) : Nat :=
  match v.token_to_id t with
  | some i => i
  | none => (v.token_to_id UNK_SYMBOL).getD 0

/-- Modelled from the spec: `get_pad()` returns the padding reserved
symbol. -/
def Vocabulary.get_pad (_ : Vocabulary) : String := PAD_SYMBOL

/-- A single `cnt[token] += 1` update of the `collections.Counter` in
`build_vocab_from_data_dir`; the counter keeps keys in first-encounter
order. -/
def counter_add (c : List (String × Nat)) (t : String) : List (String × Nat) :=
  if c.any (fun p => p.1 = t) then c.map (fun p => if p.1 = t then (p.1, p.2 + 1) else p)
  else c ++ [(t, 1)]

/-- The full frequency count over a corpus (the doubly nested `for` loop of
`build_vocab_from_data_dir`). -/
def counter (corpus : List (List String)) : List (String × Nat) :=
  corpus.foldl (fun c seq => seq.foldl counter_add c) []

/-- Stable insertion into a list sorted by descending count: the new entry
goes after all entries with a count at least as large, so earlier-inserted
keys precede later ones on ties. -/
def insert_desc : List (String × Nat) → (String × Nat) → List (String × Nat)
  | [], p => [p]
  | q :: qs, p => if p.2 ≤ q.2 then q :: insert_desc qs p else p :: q :: qs

/-- Model of `Counter.most_common(k)`: entries sorted by descending count (ties in
first-encounter order), truncated to the first `k`. -/
def most_common (cnt : List (String × Nat)) (k : Nat) : List (String × Nat) :=
  (cnt.foldl insert_desc []).take k

/-- Model of `build_vocab_from_data_dir` on an already-extracted corpus of token
sequences (directory walking and record decoding are outside the embedded
core): a Vocabulary with unknown and pad (from the constructor), then the
start and end symbols, then the at most `vocab_size` most common corpus
tokens. -/
def build_vocab_from_data_dir (corpus : List (List String)) (vocab_size : Nat) : Vocabulary :=
  let v0 : Vocabulary := ⟨[]⟩
  let v1 := v0.add_or_get_id UNK_SYMBOL
  let v2 := v1.add_or_get_id PAD_SYMBOL
  let v3 := v2.add_or_get_id START_SYMBOL
  let v4 := v3.add_or_get_id END_SYMBOL
  (most_common (counter corpus) vocab_size).foldl (fun v p => v.add_or_get_id p.1) v4

/-! ### Tensoriser -/

/-- Model of `tensorise_token_sequence`: a position-indexed build of the length-L
output, mirroring the `for i in range(length)` loop and its branch order
(`i == 0` → start symbol; `len(token_seq) >= i` → the token `token_seq[i-1]`;
`i == len(token_seq) + 1` → end symbol; otherwise the pad symbol, via
`vocab.get_id_or_unk(vocab.get_pad())`). -/
def tensorise_token_sequence (vocab : Vocabulary) (length : Nat) (token_seq : List String) : List Nat :=
  (List.range length).map fun i =>
    if i = 0 then vocab.get_id_or_unk START_SYMBOL
    else if token_seq.length ≥ i then vocab.get_id_or_unk (token_seq.getD (i - 1) "")
    else if i = token_seq.length + 1 then vocab.get_id_or_unk END_SYMBOL
    else vocab.get_id_or_unk vocab.get_pad

/-! ### Minibatch iterator -/

/-- Recursion worker for `chunked`.  The `fuel` argument only makes the
recursion structural; it is called with `fuel = l.length`, and since every
recursive call removes at least one element (the chunk size is nonzero
there), the fuel never runs out. -/
def chunkedAux (n : Nat) : Nat → List α → List (List α)
  | _, [] => []
  | 0, _ :: _ => []
  | fuel + 1, a :: l => (a :: l).take n :: chunkedAux n fuel ((a :: l).drop n)

/-- Model of `more_itertools.chunked`: consecutive chunks of size `n`; only the last
chunk may be shorter.  With `n = 0` the Python iterator produces nothing
(`take(0, it)` immediately equals the `[]` sentinel). -/
def chunked (l : List α) (n : Nat) : List (List α) :=
  if n = 0 then [] else chunkedAux n l.length l

/-- The index vector of `get_minibatch_iterator`: `np.arange(N)`, shuffled
in place when `is_training`.  The shuffle outcome is nondeterministic, so
it is passed in as `shuffled`; theorems assume only that it is a
permutation of `0..N-1`. -/
def minibatch_indices (n : Nat) (is_training : Bool) (shuffled : List Nat) : List Nat :=
  if is_training then shuffled else List.range n

/-- The `for minibatch_indices in chunked(...)` loop: a chunk shorter than
`batch_size` ends the iteration when `drop_remainder` is set, otherwise
every chunk is emitted. -/
def emit_batches (bs : Nat) (drop : Bool) : List (List Nat) → List (List Nat)
  | [] => []
  | c :: cs => if c.length < bs ∧ drop = true then [] else c :: emit_batches bs drop cs

/-- Model of `get_minibatch_iterator`: the emitted batches, each one the gathered
rows `token_seqs[minibatch_indices]`. -/
def get_minibatch_iterator (token_seqs : List (List Int)) (batch_size : Nat)
    (is_training : Bool) (shuffled : List Nat) (drop_remainder : Bool) :
    List (List (List Int)) :=
  (emit_batches batch_size drop_remainder
      (chunked (minibatch_indices token_seqs.length is_training shuffled) batch_size)).map
    (fun c => c.map (fun i => token_seqs.getD i []))

/-! ### Concrete graphs and vocabularies used as test inputs -/

/-- A vocabulary holding exactly the four reserved symbols. -/
def vocab0 : Vocabulary := ⟨[UNK_SYMBOL, PAD_SYMBOL, START_SYMBOL, END_SYMBOL]⟩

/-- A graph whose first token node has two outgoing `NEXT_TOKEN` edges
(to nodes 2 and 3); both continuations reach the end token 4. -/
def G1 : Graph :=
  { node := [
      ⟨1, NodeType.TOKEN, "A", 0, 1⟩,
      ⟨2, NodeType.TOKEN, "B", 1, 2⟩,
      ⟨3, NodeType.TOKEN, "C", 2, 3⟩,
      ⟨4, NodeType.TOKEN, "D", 3, 9⟩,
      ⟨10, NodeType.OTHER_KIND, "METHOD", 0, 9⟩ ],
    edge := [
      ⟨1, 2, EdgeType.NEXT_TOKEN⟩,
      ⟨1, 3, EdgeType.NEXT_TOKEN⟩,
      ⟨2, 4, EdgeType.NEXT_TOKEN⟩,
      ⟨3, 4, EdgeType.NEXT_TOKEN⟩ ] }

/-- A graph whose `NEXT_TOKEN` chain from the method's start token cycles
(1 → 2 → 1) and never reaches the end token 3. -/
def G4 : Graph :=
  { node := [
      ⟨1, NodeType.TOKEN, "a", 0, 0⟩,
      ⟨2, NodeType.TOKEN, "b", 1, 1⟩,
      ⟨3, NodeType.TOKEN, "c", 2, 9⟩,
      ⟨10, NodeType.OTHER_KIND, "METHOD", 0, 9⟩ ],
    edge := [
      ⟨1, 2, EdgeType.NEXT_TOKEN⟩,
      ⟨2, 1, EdgeType.NEXT_TOKEN⟩ ] }

/-- A graph whose only `NEXT_TOKEN` edge points at a node id (99) that is
not in the node index; the method's end token is node 2, which is never
reached by the chain from the start token node 1. -/
def G5 : Graph :=
  { node := [
      ⟨1, NodeType.TOKEN, "a", 0, 0⟩,
      ⟨2, NodeType.TOKEN, "b", 5, 5⟩,
      ⟨10, NodeType.OTHER_KIND, "METHOD", 0, 5⟩ ],
    edge := [ ⟨1, 99, EdgeType.NEXT_TOKEN⟩ ] }

/-- A graph with a token node that has no outgoing edges at all, so the
loop can get stuck on it. -/
def Gst : Graph :=
  { node := [
      ⟨1, NodeType.TOKEN, "a", 0, 0⟩,
      ⟨2, NodeType.TOKEN, "b", 5, 5⟩ ],
    edge := [] }

/-- A graph whose only method root has a `startPosition` (5) with no
token node indexed at it. -/
def G9 : Graph :=
  { node := [ ⟨10, NodeType.OTHER_KIND, "METHOD", 5, 7⟩ ],
    edge := [] }

/-- A graph whose method root's `startPosition` is indexed but whose
`endPosition` (7) has no token node indexed at it. -/
def G9b : Graph :=
  { node := [
      ⟨1, NodeType.TOKEN, "x", 5, 6⟩,
      ⟨10, NodeType.OTHER_KIND, "METHOD", 5, 7⟩ ],
    edge := [] }

/-- A graph with two method roots: the first yields the chain
["hi"] (nodes 1 → 2, with node 2 the exclusive end token), the second
spans a single token (start node = end node) and so yields nothing. -/
def G10 : Graph :=
  { node := [
      ⟨1, NodeType.TOKEN, "Hi", 0, 3⟩,
      ⟨2, NodeType.TOKEN, "End", 3, 9⟩,
      ⟨10, NodeType.OTHER_KIND, "METHOD", 0, 9⟩,
      ⟨11, NodeType.OTHER_KIND, "METHOD", 0, 3⟩ ],
    edge := [ ⟨1, 2, EdgeType.NEXT_TOKEN⟩ ] }

/-! ### Helper lemmas -/

theorem foldl_next_token_last (es : List Edge) (a : Int) :
    es.foldl (fun cur e => if e.type = EdgeType.NEXT_TOKEN then e.destinationId else cur) a
      = (((es.filter (fun e => e.type = EdgeType.NEXT_TOKEN)).getLast?).map
          (fun e => e.destinationId)).getD a := by
  induction es generalizing a with
  | nil => rfl
  | cons e es ih =>
    by_cases he : e.type = EdgeType.NEXT_TOKEN
    · rw [List.foldl_cons, if_pos he, ih, List.filter_cons_of_pos (by simpa using he)]
      cases h : (es.filter (fun e => e.type = EdgeType.NEXT_TOKEN)).getLast? with
      | none =>
        rw [List.getLast?_eq_none_iff.mp h]
        rfl
      | some x =>
        have hcons : (e :: es.filter (fun e => e.type = EdgeType.NEXT_TOKEN)).getLast? = some x := by
          have hne : es.filter (fun e => e.type = EdgeType.NEXT_TOKEN) ≠ [] := by
            intro hnil
            rw [hnil] at h
            exact Option.noConfusion h
          obtain ⟨y, ys, hys⟩ := List.exists_cons_of_ne_nil hne
          rw [hys, List.getLast?_cons_cons, ← hys, h]
        rw [hcons]
        rfl
    · rw [List.foldl_cons, if_neg he, ih, List.filter_cons_of_neg (by simpa using he)]

theorem stepNext_eq_last (g : Graph) (nid : Int) :
    stepNext g nid
      = ((last_next_token_dest g nid).getD nid) := by
  rw [stepNext, foldl_next_token_last, last_next_token_dest]

/-! ### Claim C1 -/

/-- Claim C1 counterexample: in `G1` node 1 has two outgoing `NEXT_TOKEN`
edges, first to node 2 (contents "B") and then to node 3 (contents "C").
The claim says the traversal advances to the destination of the FIRST such
edge (node 2), but the code advances to node 3: the extracted token list is
["a", "c"], and the loop's step function lands on 3, not on the
first-edge destination 2. -/
theorem c1_counterexample :
    load_data_file 9 G1 = some ([["a", "c"]], none) ∧
    first_next_token_dest G1 1 = some 2 ∧
    stepNext G1 1 = 3 ∧ (3 : Int) ≠ 2 := by decide

/-- Claim C1 (amended): whenever the current node has at least one outgoing
`NEXT_TOKEN` edge, the traversal advances to the destination of the LAST
such edge in edge-enumeration order (each matching edge overwrites `nid`,
so the final assignment wins). -/
theorem c1_last_edge_wins (g : Graph) (nid d : Int)
    (h : last_next_token_dest g nid = some d) :
    stepNext g nid = d := by
  rw [stepNext_eq_last, h]
  rfl

theorem c1_last_edge_wins_witness :
    last_next_token_dest G1 1 = some 3 ∧ stepNext G1 1 = 3 :=
  ⟨by decide, c1_last_edge_wins G1 1 3 (by decide)⟩

/-! ### Claim C8 -/

/-- Claim C8 (code bug): `tensorise_token_sequence` performs no length
check: with `length = 1` it returns the one-element list holding only the
start id, and with `length = 0` the empty list, instead of rejecting
`length < 2` as a configuration error. -/
theorem c8_short_length_returns :
    tensorise_token_sequence vocab0 1 ["x"] = [vocab0.get_id_or_unk START_SYMBOL] ∧
    tensorise_token_sequence vocab0 0 ["x"] = ([] : List Nat) := by decide

/-! ### Claim C4 -/

theorem chase_G4_none : ∀ (fuel : Nat) (acc : List String),
    chase G4 3 fuel 1 acc = none ∧ chase G4 3 fuel 2 acc = none := by
  intro fuel
  induction fuel with
  | zero => intro acc; exact ⟨rfl, rfl⟩
  | succ f ih =>
    intro acc
    constructor
    · have h1 : chase G4 3 (f + 1) 1 acc = chase G4 3 f 2 (lower "a" :: acc) := rfl
      rw [h1]
      exact (ih _).2
    · have h2 : chase G4 3 (f + 1) 2 acc = chase G4 3 f 1 (lower "b" :: acc) := rfl
      rw [h2]
      exact (ih _).1

/-- Claim C4 (code bug): in `G4` the `NEXT_TOKEN` chain followed from the
method's start node (id 1) revisits the start node after two steps without
having reached the end node (id 3), and `load_data_file` loops forever on
it — it produces no result for any amount of fuel and in particular raises
no error of any kind, instead of detecting the cycle and raising
`TraversalCycleError` as the claim requires. -/
theorem c4_cycle_hangs :
    iter_step G4 2 1 = 1 ∧ ∀ fuel : Nat, load_data_file fuel G4 = none := by
  refine ⟨by decide, ?_⟩
  intro fuel
  have hm : load_data_file fuel G4
      = run_methods G4 fuel [⟨10, NodeType.OTHER_KIND, "METHOD", 0, 9⟩] := rfl
  rw [hm]
  have hp : process_method G4 fuel ⟨10, NodeType.OTHER_KIND, "METHOD", 0, 9⟩
      = chase G4 3 fuel 1 [] := rfl
  simp only [run_methods, hp, (chase_G4_none fuel []).1]

/-! ### Claim C9 -/

/-- Claim C9 counterexample: in `G9` the only method root has
`startPosition` 5, which has no entry in the token-by-start-position
index.  `load_data_file` terminates with the generic `KeyError(5)` of the
failed dictionary lookup — a fatal surfaced error, but not a
`MissingTokenBoundaryError` identifying the method's span as the claim
states. -/
theorem c9_counterexample :
    load_data_file 5 G9 = some ([], some (Err.keyError 5)) ∧
    Err.isMissingTokenBoundary (Err.keyError 5) = false := by decide

/-- Claim C9 (amended): if the first method root's `startPosition` has no
entry in `tokens_by_start_pos`, `load_data_file` fails with the built-in
`KeyError` carrying that start position; if the start lookup succeeds but
the `endPosition` has no entry in `tokens_by_end_pos`, it fails with
`KeyError` carrying that end position.  Either way the failure is fatal
and surfaced to the caller — the method is not silently skipped — but the
exception is the generic lookup error, not a dedicated
`MissingTokenBoundaryError`. -/
theorem c9_missing_boundary_keyerror (g : Graph) (fuel : Nat) (m : Node)
    (hm : (methods g).head? = some m) :
    (tokens_by_start_pos g m.startPosition = none →
      load_data_file fuel g = some ([], some (Err.keyError m.startPosition))) ∧
    (∀ s, tokens_by_start_pos g m.startPosition = some s →
      tokens_by_end_pos g m.endPosition = none →
      load_data_file fuel g = some ([], some (Err.keyError m.endPosition))) := by
  obtain ⟨tl, htl⟩ : ∃ tl, methods g = m :: tl := by
    cases hms : methods g with
    | nil => rw [hms] at hm; exact Option.noConfusion hm
    | cons a tl =>
      rw [hms] at hm
      simp only [List.head?] at hm
      obtain rfl : a = m := by injection hm
      exact ⟨tl, rfl⟩
  constructor
  · intro hstart
    rw [load_data_file, htl]
    simp only [run_methods, process_method, hstart]
  · intro s hs he
    rw [load_data_file, htl]
    simp only [run_methods, process_method, hs, he]

theorem c9_missing_boundary_keyerror_witness :
    load_data_file 5 G9b = some ([], some (Err.keyError 7)) :=
  (c9_missing_boundary_keyerror G9b 5 ⟨10, NodeType.OTHER_KIND, "METHOD", 5, 7⟩
      (by decide)).2 ⟨1, NodeType.TOKEN, "x", 5, 6⟩ (by decide) (by decide)

/-! ### Claim C5 -/

theorem foldl_no_next (es : List Edge) (a : Int)
    (h : ∀ e ∈ es, e.type ≠ EdgeType.NEXT_TOKEN) :
    es.foldl (fun cur e => if e.type = EdgeType.NEXT_TOKEN then e.destinationId else cur) a
      = a := by
  induction es generalizing a with
  | nil => rfl
  | cons e es ih =>
    rw [List.foldl_cons, if_neg (h e (by simp))]
    exact ih a fun x hx => h x (by simp [hx])

theorem chase_none_of_stuck (g : Graph) (endId nid : Int) (n : Node)
    (hne : nid ≠ endId) (hn : nodes_dict g nid = some n) (hs : stepNext g nid = nid) :
    ∀ (fuel : Nat) (acc : List String), chase g endId fuel nid acc = none := by
  intro fuel
  induction fuel with
  | zero => intro acc; rfl
  | succ f ih =>
    intro acc
    simp only [chase, if_neg hne, hn, hs]
    exact ih _

theorem chase_some_reaches (g : Graph) (endId : Int) :
    ∀ (fuel : Nat) (nid : Int) (acc : List String) (r : Except Err (List String)),
      chase g endId fuel nid acc = some r →
      ∃ k, iter_step g k nid = endId ∨ nodes_dict g (iter_step g k nid) = none := by
  intro fuel
  induction fuel with
  | zero =>
    intro nid acc r h
    exact absurd h (by simp [chase])
  | succ f ih =>
    intro nid acc r h
    by_cases hnid : nid = endId
    · exact ⟨0, Or.inl hnid⟩
    · cases hnd : nodes_dict g nid with
      | none => exact ⟨0, Or.inr hnd⟩
      | some n =>
        simp only [chase, if_neg hnid, hnd] at h
        obtain ⟨k, hk⟩ := ih (stepNext g nid) (lower n.contents :: acc) r h
        exact ⟨k + 1, hk⟩

theorem reaches_chase_some (g : Graph) (endId : Int) :
    ∀ (k : Nat) (nid : Int),
      (iter_step g k nid = endId ∨ nodes_dict g (iter_step g k nid) = none) →
      ∀ acc : List String, ∃ fuel r, chase g endId fuel nid acc = some r := by
  intro k
  induction k with
  | zero =>
    intro nid h acc
    by_cases hnid : nid = endId
    · exact ⟨1, Except.ok acc.reverse, by simp [chase, hnid]⟩
    · cases hnd : nodes_dict g nid with
      | none => exact ⟨1, Except.error (Err.keyError nid), by simp [chase, hnid, hnd]⟩
      | some n =>
        simp only [iter_step] at h
        rcases h with h | h
        · exact absurd h hnid
        · rw [hnd] at h
          exact Option.noConfusion h
  | succ j ih =>
    intro nid h acc
    by_cases hnid : nid = endId
    · exact ⟨1, Except.ok acc.reverse, by simp [chase, hnid]⟩
    · cases hnd : nodes_dict g nid with
      | none => exact ⟨1, Except.error (Err.keyError nid), by simp [chase, hnid, hnd]⟩
      | some n =>
        have h2 : iter_step g j (stepNext g nid) = endId ∨
            nodes_dict g (iter_step g j (stepNext g nid)) = none := h
        obtain ⟨f, r, hf⟩ := ih (stepNext g nid) h2 (lower n.contents :: acc)
        refine ⟨f + 1, r, ?_⟩
        simp only [chase, if_neg hnid, hnd]
        exact hf

theorem iter_step_G5_99 : ∀ k : Nat, iter_step G5 k 99 = 99 := by
  intro k
  induction k with
  | zero => rfl
  | succ j ih =>
    have h : iter_step G5 (j + 1) 99 = iter_step G5 j 99 := rfl
    rw [h, ih]

/-- Claim C5 counterexample: in `G5` the method traversal from start node
1 towards end node 2 terminates (it stops with the `KeyError(99)` raised by
`nodes_dict[99]` after the only `NEXT_TOKEN` edge leads to the dangling id
99), yet following `NEXT_TOKEN` edges from the start node never reaches the
end node's id — refuting the claimed equivalence "terminates iff the chain
reaches the end node's id". -/
theorem c5_counterexample :
    load_data_file 9 G5 = some ([], some (Err.keyError 99)) ∧
    ¬ ∃ k, iter_step G5 k 1 = 2 := by
  constructor
  · decide
  · rintro ⟨k, hk⟩
    cases k with
    | zero => exact absurd hk (by decide)
    | succ j =>
      have h : iter_step G5 (j + 1) 1 = iter_step G5 j 99 := rfl
      rw [h, iter_step_G5_99 j] at hk
      exact absurd hk (by decide)

/-- Claim C5 (amended): (1) a node all of whose outgoing edges are of
non-`NEXT_TOKEN` type (in particular one absent from the edge index) is a
fixed point of the loop's step; (2) if the current node is present in the
node index, differs from the end node, and is such a fixed point, the loop
never advances and never raises — the traversal returns nothing for any
fuel; (3) the traversal for a method terminates (returns a token list or
raises) if and only if following `NEXT_TOKEN` edges from the start node
reaches the end node's id OR reaches a node id absent from the node index
(in which case it stops by raising the `KeyError` of `nodes_dict[nid]`). -/
theorem c5_stuck_and_termination (g : Graph) (endId : Int) :
    (∀ nid : Int, (∀ e ∈ edges_dict g nid, e.type ≠ EdgeType.NEXT_TOKEN) →
      stepNext g nid = nid)
    ∧ (∀ (nid : Int) (n : Node), nid ≠ endId → nodes_dict g nid = some n →
        stepNext g nid = nid → ∀ (fuel : Nat) (acc : List String),
          chase g endId fuel nid acc = none)
    ∧ (∀ startId : Int,
        (∃ fuel r, chase g endId fuel startId [] = some r)
          ↔ (∃ k, iter_step g k startId = endId
                ∨ nodes_dict g (iter_step g k startId) = none)) := by
  refine ⟨?_, ?_, ?_⟩
  · intro nid h
    rw [stepNext]
    exact foldl_no_next _ _ h
  · intro nid n hne hn hs fuel acc
    exact chase_none_of_stuck g endId nid n hne hn hs fuel acc
  · intro startId
    constructor
    · rintro ⟨fuel, r, h⟩
      exact chase_some_reaches g endId fuel startId [] r h
    · rintro ⟨k, hk⟩
      exact reaches_chase_some g endId k startId hk []

theorem c5_stuck_and_termination_witness :
    stepNext Gst 1 = 1 ∧ chase Gst 2 3 1 [] = none :=
  ⟨(c5_stuck_and_termination Gst 2).1 1 (by decide),
   (c5_stuck_and_termination Gst 2).2.1 1 ⟨1, NodeType.TOKEN, "a", 0, 0⟩ (by decide) (by decide)
     ((c5_stuck_and_termination Gst 2).1 1 (by decide)) 3 []⟩

/-! ### Claims C2 and C3 -/

theorem map_range_getD (L : Nat) (f : Nat → Nat) (i : Nat) (h : i < L) :
    ((List.range L).map f).getD i 0 = f i := by
  simp [List.getD_eq_getElem?_getD, List.getElem?_map, List.getElem?_range, h]

theorem tensorise_length (vocab : Vocabulary) (L : Nat) (seq : List String) :
    (tensorise_token_sequence vocab L seq).length = L := by
  simp [tensorise_token_sequence]

theorem tensorise_getD (vocab : Vocabulary) (L : Nat) (seq : List String) (i : Nat)
    (h : i < L) :
    (tensorise_token_sequence vocab L seq).getD i 0
      = if i = 0 then vocab.get_id_or_unk START_SYMBOL
        else if seq.length ≥ i then vocab.get_id_or_unk (seq.getD (i - 1) "")
        else if i = seq.length + 1 then vocab.get_id_or_unk END_SYMBOL
        else vocab.get_id_or_unk vocab.get_pad := by
  rw [tensorise_token_sequence]
  simp [List.getD_eq_getElem?_getD, List.getElem?_map, List.getElem?_range, h]

/-- Claim C2: for a vocabulary containing the reserved symbols and a token
sequence shorter than `L - 1`, the tensorised output has length exactly
`L`, position 0 holds the start-symbol id, positions `1..n` hold the
vocabulary ids (unknown on miss) of the tokens in original order, position
`n + 1` holds the end-symbol id, and all positions from `n + 2` to `L - 1`
hold the pad id. -/
theorem c2_pad_layout (vocab : Vocabulary) (L : Nat) (seq : List String)
    (hu : UNK_SYMBOL ∈ vocab.id_to_token) (hp : PAD_SYMBOL ∈ vocab.id_to_token)
    (hs : START_SYMBOL ∈ vocab.id_to_token) (he : END_SYMBOL ∈ vocab.id_to_token)
    (hlen : seq.length < L - 1) :
    (tensorise_token_sequence vocab L seq).length = L ∧
    (tensorise_token_sequence vocab L seq).getD 0 0 = vocab.get_id_or_unk START_SYMBOL ∧
    (∀ i, 1 ≤ i → i ≤ seq.length →
      (tensorise_token_sequence vocab L seq).getD i 0
        = vocab.get_id_or_unk (seq.getD (i - 1) "")) ∧
    (tensorise_token_sequence vocab L seq).getD (seq.length + 1) 0
      = vocab.get_id_or_unk END_SYMBOL ∧
    (∀ i, seq.length + 2 ≤ i → i < L →
      (tensorise_token_sequence vocab L seq).getD i 0
        = vocab.get_id_or_unk PAD_SYMBOL) := by
  refine ⟨tensorise_length vocab L seq, ?_, ?_, ?_, ?_⟩
  · rw [tensorise_getD vocab L seq 0 (by omega), if_pos rfl]
  · intro i h1 h2
    rw [tensorise_getD vocab L seq i (by omega), if_neg (by omega), if_pos (by omega)]
  · rw [tensorise_getD vocab L seq (seq.length + 1) (by omega), if_neg (by omega),
      if_neg (by omega), if_pos rfl]
  · intro i h1 h2
    rw [tensorise_getD vocab L seq i (by omega), if_neg (by omega), if_neg (by omega),
      if_neg (by omega)]
    rfl

theorem c2_pad_layout_witness :
    (UNK_SYMBOL ∈ vocab0.id_to_token ∧ PAD_SYMBOL ∈ vocab0.id_to_token ∧
      START_SYMBOL ∈ vocab0.id_to_token ∧ END_SYMBOL ∈ vocab0.id_to_token ∧
      (["x"] : List String).length < 4 - 1) ∧
    ((tensorise_token_sequence vocab0 4 ["x"]).length = 4 ∧
     (tensorise_token_sequence vocab0 4 ["x"]).getD 0 0 = vocab0.get_id_or_unk START_SYMBOL ∧
     (∀ i, 1 ≤ i → i ≤ (["x"] : List String).length →
       (tensorise_token_sequence vocab0 4 ["x"]).getD i 0
         = vocab0.get_id_or_unk ((["x"] : List String).getD (i - 1) "")) ∧
     (tensorise_token_sequence vocab0 4 ["x"]).getD ((["x"] : List String).length + 1) 0
       = vocab0.get_id_or_unk END_SYMBOL ∧
     (∀ i, (["x"] : List String).length + 2 ≤ i → i < 4 →
       (tensorise_token_sequence vocab0 4 ["x"]).getD i 0
         = vocab0.get_id_or_unk PAD_SYMBOL)) :=
  ⟨⟨by decide, by decide, by decide, by decide, by decide⟩,
   c2_pad_layout vocab0 4 ["x"] (by decide) (by decide) (by decide) (by decide) (by decide)⟩

theorem findIdx_getD_of_mem (l : List String) (a : String) (h : a ∈ l) :
    ∃ i, l.findIdx? (fun s => s = a) = some i ∧ l.getD i "" = a := by
  induction l with
  | nil => cases h
  | cons x xs ih =>
    by_cases hx : x = a
    · exact ⟨0, by simp [List.findIdx?_cons, hx], by simp [hx]⟩
    · have hmem : a ∈ xs := by
        rcases List.mem_cons.mp h with h1 | h1
        · exact absurd h1.symm hx
        · exact h1
      obtain ⟨i, hi, hgi⟩ := ih hmem
      refine ⟨i + 1, ?_, ?_⟩
      · simp [List.findIdx?_cons, hx, hi]
      · simpa using hgi

theorem get_id_or_unk_mem_ne (v : Vocabulary) (a b : String)
    (ha : a ∈ v.id_to_token) (hb : b ∈ v.id_to_token) (hab : a ≠ b) :
    v.get_id_or_unk a ≠ v.get_id_or_unk b := by
  obtain ⟨i, hi, hgi⟩ := findIdx_getD_of_mem _ a ha
  obtain ⟨j, hj, hgj⟩ := findIdx_getD_of_mem _ b hb
  simp only [Vocabulary.get_id_or_unk, Vocabulary.token_to_id, hi, hj]
  intro hij
  apply hab
  rw [← hgi, ← hgj, hij]

theorem range_map_getD (seq : List String) : ∀ m : Nat, m ≤ seq.length →
    (List.range m).map (fun i => seq.getD i "") = seq.take m := by
  intro m
  induction m with
  | zero => intro _; simp
  | succ k ih =>
    intro hm
    rw [List.range_succ, List.map_append, ih (by omega), List.take_succ]
    simp [List.getElem?_eq_getElem (show k < seq.length by omega),
      List.getD_eq_getElem?_getD]

/-- Claim C3 counterexample: the claim's premises hold for `vocab0`,
`L = 2` and `seq = ["%END%"]` (reserved symbols present, `L ≥ 2`,
`len(seq) ≥ L - 1`), yet the end-symbol id DOES appear in the output:
the retained token is itself the end symbol, so position 1 holds its id.
"No end-symbol id appears anywhere in the output" is therefore false as a
universal statement. -/
theorem c3_counterexample :
    START_SYMBOL ∈ vocab0.id_to_token ∧ END_SYMBOL ∈ vocab0.id_to_token ∧
    2 - 1 ≤ (["%END%"] : List String).length ∧
    tensorise_token_sequence vocab0 2 ["%END%"]
      = [vocab0.get_id_or_unk START_SYMBOL, vocab0.get_id_or_unk END_SYMBOL] ∧
    vocab0.get_id_or_unk END_SYMBOL ∈ tensorise_token_sequence vocab0 2 ["%END%"] := by
  decide

/-- Claim C3 (amended): for `L ≥ 2` and `len(seq) ≥ L - 1` the output is
exactly the start-symbol id followed by the vocabulary ids (unknown on
miss) of `seq[0..L-2]` in order — all tokens from index `L - 1` onward are
dropped and no end marker is appended; consequently the end-symbol id can
occur in the output only where a retained token itself maps to it. -/
theorem c3_truncation_layout (vocab : Vocabulary) (L : Nat) (seq : List String)
    (hs : START_SYMBOL ∈ vocab.id_to_token) (he : END_SYMBOL ∈ vocab.id_to_token)
    (hL : 2 ≤ L) (hlen : L - 1 ≤ seq.length) :
    tensorise_token_sequence vocab L seq
      = vocab.get_id_or_unk START_SYMBOL
          :: (seq.take (L - 1)).map vocab.get_id_or_unk ∧
    (vocab.get_id_or_unk END_SYMBOL ∈ tensorise_token_sequence vocab L seq →
      ∃ t ∈ seq.take (L - 1), vocab.get_id_or_unk t = vocab.get_id_or_unk END_SYMBOL) := by
  have hmain : tensorise_token_sequence vocab L seq
      = vocab.get_id_or_unk START_SYMBOL
          :: (seq.take (L - 1)).map vocab.get_id_or_unk := by
    obtain ⟨M, rfl⟩ : ∃ M, L = M + 1 := ⟨L - 1, by omega⟩
    have hM : M ≤ seq.length := by omega
    rw [tensorise_token_sequence, List.range_succ_eq_map, List.map_cons]
    congr 1
    rw [List.map_map]
    trans (List.range M).map (fun i => vocab.get_id_or_unk (seq.getD i ""))
    · apply List.map_congr_left
      intro i hi
      have hiM : i < M := List.mem_range.mp hi
      simp only [Function.comp_apply]
      rw [if_neg (by omega), if_pos (by omega)]
      simp only [Nat.succ_sub_one]
    · rw [show (fun i => vocab.get_id_or_unk (seq.getD i ""))
            = (vocab.get_id_or_unk ∘ fun i => seq.getD i "") from rfl,
        ← List.map_map, range_map_getD seq M hM]
      rfl
  refine ⟨hmain, ?_⟩
  intro hend
  rw [hmain] at hend
  rcases List.mem_cons.mp hend with h | h
  · exact absurd h.symm (get_id_or_unk_mem_ne vocab START_SYMBOL END_SYMBOL hs he (by decide))
  · obtain ⟨t, ht, hteq⟩ := List.mem_map.mp h
    exact ⟨t, ht, hteq⟩

theorem c3_truncation_layout_witness :
    (START_SYMBOL ∈ vocab0.id_to_token ∧ END_SYMBOL ∈ vocab0.id_to_token ∧
      2 ≤ 3 ∧ 3 - 1 ≤ (["x", "y", "z"] : List String).length) ∧
    (tensorise_token_sequence vocab0 3 ["x", "y", "z"]
        = vocab0.get_id_or_unk START_SYMBOL
            :: ((["x", "y", "z"] : List String).take (3 - 1)).map vocab0.get_id_or_unk ∧
     (vocab0.get_id_or_unk END_SYMBOL ∈ tensorise_token_sequence vocab0 3 ["x", "y", "z"] →
       ∃ t ∈ (["x", "y", "z"] : List String).take (3 - 1),
         vocab0.get_id_or_unk t = vocab0.get_id_or_unk END_SYMBOL)) :=
  ⟨⟨by decide, by decide, by decide, by decide⟩,
   c3_truncation_layout vocab0 3 ["x", "y", "z"] (by decide) (by decide) (by decide) (by decide)⟩

/-! ### Claim C6 -/

theorem add_or_get_id_length (v : Vocabulary) (t : String) :
    (v.add_or_get_id t).id_to_token.length ≤ v.id_to_token.length + 1 := by
  by_cases h : t ∈ v.id_to_token <;> simp [Vocabulary.add_or_get_id, h]

theorem add_or_get_id_mem (v : Vocabulary) (t u : String) (h : u ∈ v.id_to_token) :
    u ∈ (v.add_or_get_id t).id_to_token := by
  by_cases ht : t ∈ v.id_to_token <;> simp [Vocabulary.add_or_get_id, ht, h]

theorem foldl_add_length (l : List (String × Nat)) : ∀ v : Vocabulary,
    (l.foldl (fun v p => v.add_or_get_id p.1) v).id_to_token.length
      ≤ v.id_to_token.length + l.length := by
  induction l with
  | nil => intro v; simp
  | cons p l ih =>
    intro v
    rw [List.foldl_cons]
    have h1 := ih (v.add_or_get_id p.1)
    have h2 := add_or_get_id_length v p.1
    simp only [List.length_cons]
    omega

theorem foldl_add_mem (l : List (String × Nat)) (u : String) : ∀ v : Vocabulary,
    u ∈ v.id_to_token → u ∈ (l.foldl (fun v p => v.add_or_get_id p.1) v).id_to_token := by
  induction l with
  | nil => intro v h; exact h
  | cons p l ih =>
    intro v h
    rw [List.foldl_cons]
    exact ih _ (add_or_get_id_mem v p.1 u h)

/-- Claim C6: for every corpus and target size the built vocabulary holds
the four reserved symbols (unknown, pad, start, end) plus at most
`vocab_size` corpus tokens, so its size never exceeds `vocab_size + 4`;
the reserved symbols are present whatever the corpus, including an empty
one. -/
theorem c6_vocab_bound (corpus : List (List String)) (vocab_size : Nat) :
    (build_vocab_from_data_dir corpus vocab_size).id_to_token.length ≤ vocab_size + 4 ∧
    UNK_SYMBOL ∈ (build_vocab_from_data_dir corpus vocab_size).id_to_token ∧
    PAD_SYMBOL ∈ (build_vocab_from_data_dir corpus vocab_size).id_to_token ∧
    START_SYMBOL ∈ (build_vocab_from_data_dir corpus vocab_size).id_to_token ∧
    END_SYMBOL ∈ (build_vocab_from_data_dir corpus vocab_size).id_to_token := by
  have hv4 : ((((⟨[]⟩ : Vocabulary).add_or_get_id UNK_SYMBOL).add_or_get_id
      PAD_SYMBOL).add_or_get_id START_SYMBOL).add_or_get_id END_SYMBOL
      = ⟨[UNK_SYMBOL, PAD_SYMBOL, START_SYMBOL, END_SYMBOL]⟩ := by decide
  simp only [build_vocab_from_data_dir, hv4]
  refine ⟨?_, ?_, ?_, ?_, ?_⟩
  · have h1 := foldl_add_length (most_common (counter corpus) vocab_size)
      ⟨[UNK_SYMBOL, PAD_SYMBOL, START_SYMBOL, END_SYMBOL]⟩
    have h2 : (most_common (counter corpus) vocab_size).length ≤ vocab_size := by
      rw [most_common]
      exact List.length_take_le _ _
    have h3 : (⟨[UNK_SYMBOL, PAD_SYMBOL, START_SYMBOL, END_SYMBOL]⟩ : Vocabulary).id_to_token.length
        = 4 := rfl
    omega
  · exact foldl_add_mem _ _ _ (by decide)
  · exact foldl_add_mem _ _ _ (by decide)
  · exact foldl_add_mem _ _ _ (by decide)
  · exact foldl_add_mem _ _ _ (by decide)

/-! ### Claim C7 -/

theorem chunkedAux_flatten {α : Type} (n : Nat) (hn : 0 < n) :
    ∀ (f : Nat) (l : List α), l.length ≤ f → (chunkedAux n f l).flatten = l := by
  intro f
  induction f with
  | zero =>
    intro l hl
    cases l with
    | nil => rfl
    | cons a t => simp at hl
  | succ f ih =>
    intro l hl
    cases l with
    | nil => rfl
    | cons a t =>
      simp only [chunkedAux, List.flatten_cons]
      rw [ih _ (by rw [List.length_drop]; omega)]
      exact List.take_append_drop n (a :: t)

theorem chunked_flatten {α : Type} (l : List α) (n : Nat) (hn : 0 < n) :
    (chunked l n).flatten = l := by
  rw [chunked, if_neg (by omega)]
  exact chunkedAux_flatten n hn l.length l le_rfl

theorem chunkedAux_chunk_le {α : Type} (n : Nat) :
    ∀ (f : Nat) (l : List α), ∀ c ∈ chunkedAux n f l, c.length ≤ n := by
  intro f
  induction f with
  | zero =>
    intro l c hc
    cases l <;> simp [chunkedAux] at hc
  | succ f ih =>
    intro l c hc
    cases l with
    | nil => simp [chunkedAux] at hc
    | cons a t =>
      simp only [chunkedAux, List.mem_cons] at hc
      rcases hc with rfl | hc
      · exact List.length_take_le _ _
      · exact ih _ c hc

theorem chunked_chunk_le {α : Type} (l : List α) (n : Nat) :
    ∀ c ∈ chunked l n, c.length ≤ n := by
  intro c hc
  rw [chunked] at hc
  by_cases hn : n = 0
  · rw [if_pos hn] at hc
    simp at hc
  · rw [if_neg hn] at hc
    exact chunkedAux_chunk_le n l.length l c hc

theorem emit_batches_false (bs : Nat) : ∀ cs : List (List Nat),
    emit_batches bs false cs = cs := by
  intro cs
  induction cs with
  | nil => rfl
  | cons c cs ih => simp [emit_batches, ih]

theorem emit_batches_full (bs : Nat) : ∀ cs : List (List Nat),
    ∀ c ∈ emit_batches bs true cs, bs ≤ c.length := by
  intro cs
  induction cs with
  | nil => intro c hc; simp [emit_batches] at hc
  | cons d cs ih =>
    intro c hc
    by_cases hd : d.length < bs
    · rw [emit_batches, if_pos ⟨hd, rfl⟩] at hc
      simp at hc
    · rw [emit_batches, if_neg (by intro hh; exact hd hh.1)] at hc
      rcases List.mem_cons.mp hc with rfl | hc
      · omega
      · exact ih c hc

theorem emit_batches_subset (bs : Nat) (drop : Bool) : ∀ cs : List (List Nat),
    ∀ c ∈ emit_batches bs drop cs, c ∈ cs := by
  intro cs
  induction cs with
  | nil => intro c hc; simp [emit_batches] at hc
  | cons d cs ih =>
    intro c hc
    rw [emit_batches] at hc
    by_cases hd : d.length < bs ∧ drop = true
    · rw [if_pos hd] at hc
      simp at hc
    · rw [if_neg hd] at hc
      rcases List.mem_cons.mp hc with rfl | hc
      · exact List.mem_cons_self c cs
      · exact List.mem_cons_of_mem d (ih c hc)

theorem emit_chunkedAux_length (n : Nat) (hn : 0 < n) :
    ∀ (f : Nat) (l : List Nat), l.length ≤ f →
      (emit_batches n true (chunkedAux n f l)).flatten.length
        = l.length - l.length % n := by
  intro f
  induction f with
  | zero =>
    intro l hl
    cases l with
    | nil => rfl
    | cons a t => simp at hl
  | succ f ih =>
    intro l hl
    cases l with
    | nil => rfl
    | cons a t =>
      simp only [chunkedAux]
      by_cases hlen : (a :: t).length < n
      · have htake : ((a :: t).take n).length < n := by
          rw [List.length_take]
          omega
        rw [emit_batches, if_pos ⟨htake, rfl⟩]
        have hmod : (a :: t).length % n = (a :: t).length := Nat.mod_eq_of_lt hlen
        rw [show (([] : List (List Nat)).flatten.length) = 0 from rfl]
        omega
      · have htake : ¬ ((a :: t).take n).length < n := by
          rw [List.length_take]
          omega
        rw [emit_batches, if_neg (by intro hh; exact htake hh.1)]
        rw [List.flatten_cons, List.length_append]
        have hdrop : ((a :: t).drop n).length ≤ f := by
          rw [List.length_drop]
          omega
        rw [ih _ hdrop]
        have hta : ((a :: t).take n).length = n := by
          rw [List.length_take]
          omega
        have hdl : ((a :: t).drop n).length = (a :: t).length - n := List.length_drop n (a :: t)
        have hmod : ((a :: t).length - n) % n = (a :: t).length % n := by
          have hsub : (a :: t).length - n + n = (a :: t).length := by omega
          calc ((a :: t).length - n) % n
              = ((a :: t).length - n + n) % n := (Nat.add_mod_right _ n).symm
            _ = (a :: t).length % n := by rw [hsub]
        have hmlt : (a :: t).length % n < n := Nat.mod_lt _ hn
        have hge : n ≤ (a :: t).length := by omega
        have hdiv : n * ((a :: t).length / n) + (a :: t).length % n = (a :: t).length :=
          Nat.div_add_mod _ n
        have hq : 1 ≤ (a :: t).length / n := (Nat.one_le_div_iff hn).mpr hge
        have hnq : n ≤ n * ((a :: t).length / n) := Nat.le_mul_of_pos_right n hq
        rw [hta, hdl, hmod]
        omega

theorem emit_chunked_length (l : List Nat) (n : Nat) (hn : 0 < n) :
    (emit_batches n true (chunked l n)).flatten.length = l.length - l.length % n := by
  rw [chunked, if_neg (by omega)]
  exact emit_chunkedAux_length n hn l.length l le_rfl

/-- Claim C7: with a positive batch size, the concatenation of all chunks
of the index vector (before any dropping) is exactly the index vector,
which is a permutation of `0..N-1` with no duplicates (the identity order
when not training); with `drop_remainder = false` every chunk is emitted,
and with `drop_remainder = true` every emitted batch has exactly
`batch_size` rows and the total number of emitted rows is
`N - (N mod batch_size)`. -/
theorem c7_minibatch_partition (N bs : Nat) (tr drop : Bool) (shuffled : List Nat)
    (hbs : 0 < bs)
    (hsh : tr = true → shuffled.Perm (List.range N)) :
    (chunked (minibatch_indices N tr shuffled) bs).flatten = minibatch_indices N tr shuffled ∧
    (minibatch_indices N tr shuffled).Perm (List.range N) ∧
    (minibatch_indices N tr shuffled).Nodup ∧
    (tr = false → minibatch_indices N tr shuffled = List.range N) ∧
    (drop = false →
      emit_batches bs drop (chunked (minibatch_indices N tr shuffled) bs)
        = chunked (minibatch_indices N tr shuffled) bs) ∧
    (drop = true →
      (∀ c ∈ emit_batches bs drop (chunked (minibatch_indices N tr shuffled) bs),
        c.length = bs) ∧
      ∀ data : List (List Int), data.length = N →
        ((get_minibatch_iterator data bs tr shuffled drop).map List.length).sum
          = N - N % bs) := by
  have hperm : (minibatch_indices N tr shuffled).Perm (List.range N) := by
    cases tr with
    | true => simpa [minibatch_indices] using hsh rfl
    | false => simp [minibatch_indices]
  have hlen : (minibatch_indices N tr shuffled).length = N :=
    hperm.length_eq.trans (List.length_range N)
  refine ⟨chunked_flatten _ bs hbs, hperm, hperm.nodup_iff.mpr (List.nodup_range N), ?_, ?_, ?_⟩
  · intro htr
    simp [minibatch_indices, htr]
  · intro hdrop
    rw [hdrop]
    exact emit_batches_false bs _
  · intro hdrop
    subst hdrop
    constructor
    · intro c hc
      have h1 := emit_batches_full bs _ c hc
      have h2 := chunked_chunk_le (minibatch_indices N tr shuffled) bs c
        (emit_batches_subset bs true _ c hc)
      omega
    · intro data hdata
      rw [get_minibatch_iterator, hdata]
      rw [List.map_map]
      have hcomp : (List.length ∘ fun c : List Nat => c.map (fun i => data.getD i []))
          = List.length := by
        funext c
        simp
      rw [hcomp, ← List.length_flatten, emit_chunked_length _ bs hbs, hlen]

theorem c7_minibatch_partition_witness :
    (0 < 2 ∧ (true = true → ([4, 2, 0, 1, 3] : List Nat).Perm (List.range 5))) ∧
    ((chunked (minibatch_indices 5 true [4, 2, 0, 1, 3]) 2).flatten
        = minibatch_indices 5 true [4, 2, 0, 1, 3] ∧
     (minibatch_indices 5 true [4, 2, 0, 1, 3]).Perm (List.range 5) ∧
     (minibatch_indices 5 true [4, 2, 0, 1, 3]).Nodup ∧
     (true = false → minibatch_indices 5 true [4, 2, 0, 1, 3] = List.range 5) ∧
     (true = false →
       emit_batches 2 true (chunked (minibatch_indices 5 true [4, 2, 0, 1, 3]) 2)
         = chunked (minibatch_indices 5 true [4, 2, 0, 1, 3]) 2) ∧
     (true = true →
       (∀ c ∈ emit_batches 2 true (chunked (minibatch_indices 5 true [4, 2, 0, 1, 3]) 2),
         c.length = 2) ∧
       ∀ data : List (List Int), data.length = 5 →
         ((get_minibatch_iterator data 2 true [4, 2, 0, 1, 3] true).map List.length).sum
           = 5 - 5 % 2)) :=
  ⟨⟨by decide, fun _ => by decide⟩,
   c7_minibatch_partition 5 2 true true [4, 2, 0, 1, 3] (by decide) (fun _ => by decide)⟩

/-! ### Claim C10 -/

theorem chase_ok_length (g : Graph) (endId : Int) :
    ∀ (fuel : Nat) (nid : Int) (acc : List String) (ts : List String),
      chase g endId fuel nid acc = some (Except.ok ts) → acc.length ≤ ts.length := by
  intro fuel
  induction fuel with
  | zero =>
    intro nid acc ts h
    exact absurd h (by simp [chase])
  | succ f ih =>
    intro nid acc ts h
    by_cases hnid : nid = endId
    · rw [chase, if_pos hnid] at h
      have : acc.reverse = ts := by
        injection h with h1
        injection h1
      rw [← this, List.length_reverse]
    · cases hnd : nodes_dict g nid with
      | none =>
        rw [chase, if_neg hnid, hnd] at h
        simp at h
      | some n =>
        rw [chase, if_neg hnid, hnd] at h
        have := ih (stepNext g nid) (lower n.contents :: acc) ts h
        simp only [List.length_cons] at this
        omega

theorem process_ok_empty_iff (g : Graph) (fuel : Nat) (m : Node) (s e : Node)
    (ts : List String)
    (hs : tokens_by_start_pos g m.startPosition = some s)
    (he : tokens_by_end_pos g m.endPosition = some e)
    (hok : process_method g fuel m = some (Except.ok ts)) :
    ts = [] ↔ s.id = e.id := by
  rw [process_method, hs, he] at hok
  constructor
  · intro hts
    by_contra hne
    cases fuel with
    | zero => exact absurd hok (by simp [chase])
    | succ f =>
      cases hnd : nodes_dict g s.id with
      | none =>
        simp only [chase, if_neg hne, hnd] at hok
        simp at hok
      | some n =>
        simp only [chase, if_neg hne, hnd] at hok
        have := chase_ok_length g e.id f (stepNext g s.id) (lower n.contents :: []) ts hok
        rw [hts] at this
        simp at this
  · intro hid
    cases fuel with
    | zero => exact absurd hok (by simp [chase])
    | succ f =>
      simp only [chase, if_pos hid] at hok
      have : ([] : List String).reverse = ts := by
        injection hok with h1
        injection h1
      simp at this
      exact this

theorem run_methods_filterMap (g : Graph) (fuel : Nat) :
    ∀ (ms : List Node) (ys : List (List String)),
      run_methods g fuel ms = some (ys, none) →
      ys = ms.filterMap (fun m =>
        match process_method g fuel m with
        | some (Except.ok ts) => if ts.length > 0 then some ts else none
        | _ => none) := by
  intro ms
  induction ms with
  | nil =>
    intro ys h
    simp only [run_methods] at h
    injection h with h1
    rw [← (Prod.mk.injEq _ _ _ _).mp h1 |>.1]
    rfl
  | cons m ms ih =>
    intro ys h
    rw [run_methods] at h
    cases hp : process_method g fuel m with
    | none => rw [hp] at h; exact absurd h (by simp)
    | some x =>
      rw [hp] at h
      cases x with
      | error err => simp at h
      | ok ts =>
        cases hr : run_methods g fuel ms with
        | none => rw [hr] at h; exact absurd h (by simp)
        | some p =>
          rw [hr] at h
          obtain ⟨ys2, r⟩ := p
          simp only [] at h
          injection h with h1
          have h2 := (Prod.mk.injEq _ _ _ _).mp h1
          have hr2 : r = none := h2.2
          rw [hr2] at hr
          have hys2 := ih ys2 hr
          rw [List.filterMap_cons, hp]
          by_cases hts : ts.length > 0
          · simp only [if_pos hts]
            rw [← h2.1, if_pos hts, hys2]
          · simp only [if_neg hts]
            rw [← h2.1, if_neg hts, hys2]

/-- Claim C10: when `load_data_file` terminates without error, it yields
exactly the non-empty token lists, one per method root whose traversal
produced a non-empty list, in method-root order (the order in which
`METHOD`-marked nodes occur in the graph's node enumeration); and for a
successfully processed method the token list is empty exactly when the
method's start token node and end token node have the same id. -/
theorem c10_nonempty_in_order (g : Graph) (fuel : Nat) (ys : List (List String))
    (h : load_data_file fuel g = some (ys, none)) :
    (∀ l ∈ ys, l ≠ []) ∧
    ys = (methods g).filterMap (fun m =>
      match process_method g fuel m with
      | some (Except.ok ts) => if ts.length > 0 then some ts else none
      | _ => none) ∧
    methods g = g.node.filter (fun n => n.contents = "METHOD") ∧
    (∀ m ∈ methods g, ∀ (s e : Node) (ts : List String),
      tokens_by_start_pos g m.startPosition = some s →
      tokens_by_end_pos g m.endPosition = some e →
      process_method g fuel m = some (Except.ok ts) →
      (ts = [] ↔ s.id = e.id)) := by
  have hys := run_methods_filterMap g fuel (methods g) ys h
  refine ⟨?_, hys, rfl, ?_⟩
  · intro l hl
    rw [hys] at hl
    obtain ⟨m, _, hfm⟩ := List.mem_filterMap.mp hl
    cases hp : process_method g fuel m with
    | none => rw [hp] at hfm; exact absurd hfm (by simp)
    | some x =>
      rw [hp] at hfm
      cases x with
      | error err => exact absurd hfm (by simp)
      | ok ts =>
        by_cases hts : ts.length > 0
        · simp only [if_pos hts] at hfm
          injection hfm with h1
          rw [← h1]
          intro hnil
          rw [hnil] at hts
          simp at hts
        · simp only [if_neg hts] at hfm
          exact absurd hfm (by simp)
  · intro m _ s e ts hs he hok
    exact process_ok_empty_iff g fuel m s e ts hs he hok

theorem c10_nonempty_in_order_witness :
    (∀ l ∈ [["hi"]], l ≠ ([] : List String)) ∧
    [["hi"]] = (methods G10).filterMap (fun m =>
      match process_method G10 5 m with
      | some (Except.ok ts) => if ts.length > 0 then some ts else none
      | _ => none) ∧
    methods G10 = G10.node.filter (fun n => n.contents = "METHOD") ∧
    (∀ m ∈ methods G10, ∀ (s e : Node) (ts : List String),
      tokens_by_start_pos G10 m.startPosition = some s →
      tokens_by_end_pos G10 m.endPosition = some e →
      process_method G10 5 m = some (Except.ok ts) →
      (ts = [] ↔ s.id = e.id)) :=
  c10_nonempty_in_order G10 5 [["hi"]] (by decide)
